import Mathlib

/-!
Verification of the i18n extraction pipeline (`i18n/extract.py`).

The Python module is embedded shallowly:

* a locale message directory is a map from filename to optional file
  contents (`Dir`); `os.rename` is modelled with POSIX semantics
  (destination silently overwritten, source removed);
* a gettext catalog (`polib.POFile`) is a structure holding a header
  string (as `List Char`), a metadata association list, the
  `metadata_is_fuzzy` field and an ordered entry list;
* Python's `str.replace` for a nonempty pattern (the only way the
  source uses it) is the recursive left-to-right scan `pyReplace`;
* the orchestration (`Extract.run`, `Extract.run_babel_extraction`)
  is embedded as a function producing the trace of external actions
  (tool invocations, renames, catalog cleanups, file removals),
  parameterised by the filesystem facts the code branches on
  (configuration-file existence, per-locale catalog existence,
  combined-output existence) and by the segmentation collaborator.
-/

namespace I18nExtract

/-! ### Character-list string machinery -/

/-- `leadsWith p s` holds when the character list `p` is an initial
segment of `s` (Python's `s.startswith(p)` at offset 0). -/
def leadsWith : List Char → List Char → Bool
  | [], _ => true
  | _ :: _, [] => false
  | a :: as, b :: bs => a == b && leadsWith as bs

/-- `hasSub s p`: the character list `p` occurs contiguously inside `s`. -/
def hasSub : List Char → List Char → Bool
  | [], p => p.isEmpty
  | c :: t, p => leadsWith p (c :: t) || hasSub t p

/-- Embedding of Python's `s.replace(p, r)` for a nonempty pattern `p`:
scan `s` left to right, replacing each (non-overlapping, leftmost-first)
occurrence of `p` by `r`.  All patterns the source passes to `replace`
are nonempty literals, so the empty-pattern corner of Python's
`str.replace` is irrelevant; `pyReplace` leaves `s` unchanged there. -/
def pyReplaceAux : Nat → List Char → List Char → List Char → List Char
  | _, [], _, _ => []
  | 0, s, _, _ => s
  | Nat.succ n, c :: cs, p, r =>
    if leadsWith p (c :: cs) && !p.isEmpty then
      r ++ pyReplaceAux n (List.drop (p.length - 1) cs) p r
    else
      c :: pyReplaceAux n cs p r

/-- The scan consumes at least one character per step, so `s.length`
units of fuel always suffice; `pyReplaceAux` never hits its fuel floor
on these arguments.  `List.drop (p.length - 1) cs` is
`List.drop p.length (c :: cs)` for the nonempty `p` guarding it. -/
def pyReplace (s p r : List Char) : List Char :=
  pyReplaceAux s.length s p r

/-! ### Catalog model (`polib.POFile`) -/

/-- The apostrophe character, written by code point. -/
def apos : Char := Char.ofNat 39

/-- One catalog entry (`polib.POEntry`): original string `msgid`,
translation `msgstr`, optional context `msgctxt`, source occurrences. -/
structure POEntry where
  msgid : List Char
  msgstr : List Char
  msgctxt : Option (List Char)
  occurrences : List (List Char × Nat)
deriving DecidableEq, Repr

/-- A catalog (`polib.POFile`): free-text header, metadata mapping
(association list, key to value), the `metadata_is_fuzzy` field and the
ordered entry list. -/
structure POFile where
  header : List Char
  metadata : List (String × String)
  metadata_is_fuzzy : List String
  entries : List POEntry
deriving DecidableEq, Repr

/-- `EDX_MARKER = "edX translation file"`. -/
def EDX_MARKER : List Char := "edX translation file".toList

/-- The ordered `fixes` list of `fix_header`, with `str(datetime.utcnow().year)`
passed in as `year`. -/
def headerFixes (year : List Char) : List (List Char × List Char) :=
  [("SOME DESCRIPTIVE TITLE".toList, EDX_MARKER),
   ("Translations template for PROJECT.".toList, EDX_MARKER),
   ("YEAR".toList, year),
   ("ORGANIZATION".toList, "edX".toList),
   ("THE PACKAGE".toList ++ [apos] ++ "S COPYRIGHT HOLDER".toList, "EdX".toList),
   ("This file is distributed under the same license as the PROJECT project.".toList,
    "This file is distributed under the GNU AFFERO GENERAL PUBLIC LICENSE.".toList),
   ("This file is distributed under the same license as the PACKAGE package.".toList,
    "This file is distributed under the GNU AFFERO GENERAL PUBLIC LICENSE.".toList),
   ("FIRST AUTHOR <EMAIL@ADDRESS>".toList, "EdX Team <info@edx.org>".toList)]

/-- `for src, dest in fixes: header = header.replace(src, dest)`. -/
def applyFixes (fixes : List (List Char × List Char)) (h : List Char) : List Char :=
  fixes.foldl (fun acc pr => pyReplace acc pr.1 pr.2) h

/-- `fix_header`: clear the fuzzy marker on the catalog's metadata entry and
run the ordered literal replacements over the header text. -/
def fix_header (year : List Char) (c : POFile) : POFile :=
  { c with metadata_is_fuzzy := [],
           header := applyFixes (headerFixes year) c.header }

/-- The `fixes` dict of `fix_metadata`; `datetime.utcnow()` is passed in
(already serialised) as `now`. -/
def metadataFixes (now : String) : List (String × String) :=
  [("PO-Revision-Date", now),
   ("Report-Msgid-Bugs-To", "openedx-translation@googlegroups.com"),
   ("Project-Id-Version", "0.1a"),
   ("Language", "en"),
   ("Last-Translator", ""),
   ("Language-Team", "openedx-translation <openedx-translation@googlegroups.com>")]

/-- Store `v` under key `k` in an association list, Python-dict style:
overwrite the value of an existing key in place, append a fresh key. -/
def updateKey (m : List (String × String)) (k v : String) : List (String × String) :=
  if m.any (fun kv => kv.1 == k) then
    m.map (fun kv => if kv.1 == k then (k, v) else kv)
  else
    m ++ [(k, v)]

/-- `pofile.metadata.update(fixes)`. -/
def dictUpdate (m fixes : List (String × String)) : List (String × String) :=
  fixes.foldl (fun acc kv => updateKey acc kv.1 kv.2) m

/-- `fix_metadata`: overwrite the fixed metadata keys unconditionally. -/
def fix_metadata (now : String) (c : POFile) : POFile :=
  { c with metadata := dictUpdate c.metadata (metadataFixes now) }

/-- `is_key_string`: `len(string) > 1 and string[0] == '_'`. -/
def is_key_string (s : List Char) : Bool :=
  decide (1 < s.length) && (s.getD 0 ' ' == '_')

/-- `strip_key_strings`: keep exactly the entries whose `msgid` is not a
key string, in order (the list comprehension plus `del`/`+=`). -/
def strip_key_strings (c : POFile) : POFile :=
  { c with entries := c.entries.filter (fun e => !is_key_string e.msgid) }

/-! ### Locale message directory and the rename-based guard -/

/-- A locale message directory: filename to optional contents. -/
abbrev Dir : Type := String → Option String

/-- `Extract.rename_source_file`: if `src` exists, `os.rename` it to `dst`
(POSIX semantics: an existing `dst` is silently overwritten, `src`
disappears); otherwise print a message and change nothing. -/
def rename_source_file (src dst : String) (d : Dir) : Dir :=
  if (d src).isSome then
    fun f => if f = dst then d src else if f = src then none else d f
  else d

/-- The guard step of `Extract.run` (lines 142-143): save `django.po` and
`djangojs.po` under their `-saved` names, each only if present. -/
def guardFiles (d : Dir) : Dir :=
  rename_source_file "djangojs.po" "djangojs-saved.po"
    (rename_source_file "django.po" "django-saved.po" d)

/-- The restore step of `Extract.run` (lines 185-186): rename the `-saved`
variants back, each only if present. -/
def restoreFiles (d : Dir) : Dir :=
  rename_source_file "djangojs-saved.po" "djangojs.po"
    (rename_source_file "django-saved.po" "django.po" d)

/-! ### Trace model of the orchestrator -/

/-- One externally visible action of the pipeline. -/
inductive Event : Type
  | babelExtract (domain : String)
  | babelInit (locale domain : String)
  | babelUpdate (domain : String)
  | removeFile (path : String)
  | renameFile (locale src dst : String)
  | makemessages (locale domain : String)
  | segment (locale : String)
  | clean (locale filename : String)
deriving DecidableEq, Repr

/-- Trace of `Extract.run_babel_extraction`.  `cfgExists` is
`babel_cfg.exists()`; `hasCatalog l` is the per-locale
`os.path.isfile(base(locale_msg_dir, outputfile_name + '.po'))` test;
`outputExists` is the final `os.path.isfile(outputfile_path)` test. -/
def runBabelTrace (name : String) (cfgExists : Bool) (locales : List String)
    (hasCatalog : String → Bool) (outputExists : Bool) : List Event :=
  if cfgExists then
    Event.babelExtract name ::
      (locales.flatMap fun l =>
        if hasCatalog l then [] else [Event.babelInit l name])
      ++ [Event.babelUpdate name]
      ++ (if outputExists then [Event.removeFile (name ++ ".po")] else [])
  else []

/-- Trace of the per-locale body of the loop in `Extract.run`
(lines 138-186).  `seg l` is the list of filenames reported by
`segment_pofiles(locale)`, in the iteration order of `files_to_clean`;
`renameFile` records an invocation of `rename_source_file`, and
`clean l f` records the load / `fix_header` / `fix_metadata` /
`strip_key_strings` / save sequence applied to one segmented file. -/
def localeTrace (seg : String → List String) (l : String) : List Event :=
  [Event.renameFile l "django.po" "django-saved.po",
   Event.renameFile l "djangojs.po" "djangojs-saved.po",
   Event.makemessages l "django",
   Event.makemessages l "djangojs",
   Event.renameFile l "django.po" "django-partial.po",
   Event.renameFile l "djangojs.po" "djangojs-partial.po",
   Event.segment l]
  ++ (seg l).map (Event.clean l)
  ++ [Event.renameFile l "django-saved.po" "django.po",
      Event.renameFile l "djangojs-saved.po" "djangojs.po"]

/-- Trace of `Extract.run`: the two optional babel passes, then the
per-locale guarded extraction loop. -/
def runTrace (cfgMako cfgUnderscore : Bool) (locales : List String)
    (hasCatMako hasCatUnderscore : String → Bool) (exMako exUnderscore : Bool)
    (seg : String → List String) : List Event :=
  runBabelTrace "mako" cfgMako locales hasCatMako exMako
  ++ runBabelTrace "underscore" cfgUnderscore locales hasCatUnderscore exUnderscore
  ++ locales.flatMap (localeTrace seg)

/-- Guard events of locale `l` (the two saving renames). -/
def isGuardEvent (l : String) : Event → Bool
  | .renameFile l' s d =>
    l' == l && ((s == "django.po" && d == "django-saved.po")
      || (s == "djangojs.po" && d == "djangojs-saved.po"))
  | _ => false

/-- Primary-extraction (`makemessages`) events of locale `l`. -/
def isMakeEvent (l : String) : Event → Bool
  | .makemessages l' _ => l' == l
  | _ => false

/-- Normalization events of locale `l` (cleaning one segmented file). -/
def isCleanEvent (l : String) : Event → Bool
  | .clean l' _ => l' == l
  | _ => false

/-- Restore events of locale `l` (the two renames back). -/
def isRestoreEvent (l : String) : Event → Bool
  | .renameFile l' s d =>
    l' == l && ((s == "django-saved.po" && d == "django.po")
      || (s == "djangojs-saved.po" && d == "djangojs.po"))
  | _ => false

/-- The extraction pass a babel event belongs to, if any. -/
def eventDomain : Event → Option String
  | .babelExtract n => some n
  | .babelInit _ n => some n
  | .babelUpdate n => some n
  | .makemessages _ d => some d
  | _ => none

/-! ### Helper lemmas on renames -/

/-- Pointwise description of `rename_source_file`. -/
lemma rename_apply (src dst : String) (d : Dir) (f : String) :
    rename_source_file src dst d f =
      if (d src).isSome then
        (if f = dst then d src else if f = src then none else d f)
      else d f := by
  by_cases h : (d src).isSome <;> simp [rename_source_file, h]

/-- Renaming an absent file changes nothing. -/
lemma rename_noop (src dst : String) (d : Dir) (h : d src = none) :
    rename_source_file src dst d = d := by
  simp [rename_source_file, h]

/-- Saving one file away and renaming it back restores the directory,
provided the saved name was initially free. -/
lemma pair_roundtrip (s s' : String) (hne : s ≠ s') (d : Dir) (h : d s' = none) :
    rename_source_file s' s (rename_source_file s s' d) = d := by
  by_cases hs : (d s).isSome
  · funext f
    rw [rename_apply, rename_apply]
    simp only [rename_apply]
    simp only [if_pos rfl, hs, if_true]
    split_ifs <;> simp_all
  · rw [rename_noop s s' d (Option.not_isSome_iff_eq_none.mp hs),
        rename_noop s' s d h]

/-- Renames on disjoint filename pairs commute. -/
lemma rename_comm (a b c e : String) (d : Dir)
    (hac : a ≠ c) (hae : a ≠ e) (hbc : b ≠ c) (hbe : b ≠ e) :
    rename_source_file a b (rename_source_file c e d)
      = rename_source_file c e (rename_source_file a b d) := by
  funext f
  simp only [rename_apply]
  split_ifs <;> simp_all

/-- After a guard, `django.po` is always absent. -/
lemma guard_django_none (d : Dir) : guardFiles d "django.po" = none := by
  by_cases h : (d "django.po").isSome
  · simp [guardFiles, rename_apply, h]
  · simp only [Option.not_isSome_iff_eq_none] at h
    simp [guardFiles, rename_apply, h]

/-- After a guard, `djangojs.po` is always absent. -/
lemma guard_djangojs_none (d : Dir) : guardFiles d "djangojs.po" = none := by
  by_cases h : (d "django.po").isSome <;>
    by_cases h2 : (d "djangojs.po").isSome <;>
      simp_all [guardFiles, rename_apply, Option.not_isSome_iff_eq_none]

/-! ### C1: guard / restore round trip -/

/-- Claim C1 (amended): on any directory state in which the two `-saved`
names are initially free, restoring after guarding reproduces exactly the
original directory (all filenames, bit-identical contents); and a second
guard performed immediately after a first guard changes nothing, on every
directory state whatsoever.  As stated — round trip over arbitrary
directory states — the claim is false, because a leftover `-saved` file
breaks the round trip; see the counterexample. -/
theorem guard_restore_roundtrip :
    (∀ d : Dir, d "django-saved.po" = none → d "djangojs-saved.po" = none →
       restoreFiles (guardFiles d) = d) ∧
    (∀ d : Dir, guardFiles (guardFiles d) = guardFiles d) := by
  constructor
  · intro d h1 h2
    show rename_source_file "djangojs-saved.po" "djangojs.po"
      (rename_source_file "django-saved.po" "django.po"
        (rename_source_file "djangojs.po" "djangojs-saved.po"
          (rename_source_file "django.po" "django-saved.po" d))) = d
    rw [rename_comm "django-saved.po" "django.po" "djangojs.po" "djangojs-saved.po" _
          (by decide) (by decide) (by decide) (by decide),
        pair_roundtrip "django.po" "django-saved.po" (by decide) d h1,
        pair_roundtrip "djangojs.po" "djangojs-saved.po" (by decide) d h2]
  · intro d
    show rename_source_file "djangojs.po" "djangojs-saved.po"
      (rename_source_file "django.po" "django-saved.po" (guardFiles d)) = guardFiles d
    rw [rename_noop "django.po" "django-saved.po" (guardFiles d) (guard_django_none d),
        rename_noop "djangojs.po" "djangojs-saved.po" (guardFiles d) (guard_djangojs_none d)]

/-- A directory holding only a leftover `django-saved.po` (say from an
earlier aborted run): guard does nothing, but restore then renames the
leftover onto `django.po`. -/
def leftoverDir : Dir := fun f => if f = "django-saved.po" then some "x" else none

/-- Claim C1, counterexample to the claim as stated: on `leftoverDir`,
guard followed by restore does not reproduce the starting state — the
leftover saved file moves onto `django.po`. -/
theorem guard_restore_counterexample :
    ¬ (restoreFiles (guardFiles leftoverDir) = leftoverDir ∧
       guardFiles (guardFiles leftoverDir) = guardFiles leftoverDir) :=
  fun h => absurd (congrFun h.1 "django.po") (by decide)

/-- An ordinary pre-run directory: both guarded catalogs present, no
`-saved` leftovers. -/
def roundtripDirExample : Dir :=
  fun f => if f = "django.po" then some "A" else
    if f = "djangojs.po" then some "B" else none

/-- Claim C1, witness: the round-trip half applied to a concrete
directory satisfying its hypotheses, and the unconditional second-guard
half applied to the leftover state that breaks the round trip. -/
theorem guard_restore_roundtrip_witness :
    (roundtripDirExample "django-saved.po" = none ∧
     roundtripDirExample "djangojs-saved.po" = none) ∧
    (restoreFiles (guardFiles roundtripDirExample) = roundtripDirExample ∧
     guardFiles (guardFiles leftoverDir) = guardFiles leftoverDir) :=
  ⟨⟨by decide, by decide⟩,
   guard_restore_roundtrip.1 roundtripDirExample (by decide) (by decide),
   guard_restore_roundtrip.2 leftoverDir⟩

/-! ### C10: guard silently clobbers a leftover saved file -/

/-- Claim C10: when both the original catalog and its `-saved` variant
exist, guarding renames the original over the `-saved` variant: the
saved slot now holds the original's contents and the original name is
gone, so the previously saved contents are no longer present under
either name — and the model of `os.rename` (POSIX) raises nothing. -/
theorem guard_clobbers_saved (d : Dir) :
    (∀ x y, d "django.po" = some x → d "django-saved.po" = some y →
      guardFiles d "django-saved.po" = some x ∧ guardFiles d "django.po" = none) ∧
    (∀ x y, d "djangojs.po" = some x → d "djangojs-saved.po" = some y →
      guardFiles d "djangojs-saved.po" = some x ∧ guardFiles d "djangojs.po" = none) := by
  constructor
  · intro x y hx _
    refine ⟨?_, guard_django_none d⟩
    by_cases hjs : (d "djangojs.po").isSome <;> simp [guardFiles, rename_apply, hx, hjs]
  · intro x y hx _
    refine ⟨?_, guard_djangojs_none d⟩
    by_cases hdj : (d "django.po").isSome <;> simp [guardFiles, rename_apply, hx, hdj]

/-- A directory with both `django.po` and a stale `django-saved.po`. -/
def clobberDirExample : Dir :=
  fun f => if f = "django.po" then some "new" else
    if f = "django-saved.po" then some "old" else none

/-- Claim C10, witness: the clobbering theorem applied to a concrete
directory where both files exist. -/
theorem guard_clobbers_saved_witness :
    (clobberDirExample "django.po" = some "new" ∧
     clobberDirExample "django-saved.po" = some "old") ∧
    (guardFiles clobberDirExample "django-saved.po" = some "new" ∧
     guardFiles clobberDirExample "django.po" = none) :=
  ⟨⟨by decide, by decide⟩,
   (guard_clobbers_saved clobberDirExample).1 "new" "old" (by decide) (by decide)⟩

/-! ### C5: the key-string classifier -/

/-- Claim C5: `is_key_string` is a pure total predicate returning true
exactly when the string's length exceeds 1 and its first character is
the underscore; in particular the empty string and the lone underscore
yield false. -/
theorem is_key_string_spec (s : List Char) :
    (is_key_string s = true ↔ 1 < s.length ∧ s.head? = some '_') ∧
    is_key_string [] = false ∧ is_key_string ['_'] = false := by
  refine ⟨?_, by decide, by decide⟩
  cases s with
  | nil => simp [is_key_string]
  | cons c t => simp [is_key_string, List.getD]

/-! ### C4: key-string stripping -/

/-- Claim C4 (amended): `strip_key_strings` is a true filter on the
entries' `msgid` — the original-language string alone, the context being
ignored: the surviving entries are exactly those whose `msgid` does not
satisfy `is_key_string`, their relative order is preserved (sublist),
and the rest of the catalog is untouched.  The claim as stated — with
the filter keyed on the `"context\u0004id"` identity — is refuted by the
counterexample below. -/
theorem strip_key_strings_true_filter (c : POFile) :
    (strip_key_strings c).entries.Sublist c.entries ∧
    (∀ e, e ∈ (strip_key_strings c).entries ↔
      e ∈ c.entries ∧ is_key_string e.msgid = false) ∧
    (strip_key_strings c).header = c.header ∧
    (strip_key_strings c).metadata = c.metadata ∧
    (strip_key_strings c).metadata_is_fuzzy = c.metadata_is_fuzzy := by
  refine ⟨List.filter_sublist _, ?_, rfl, rfl, rfl⟩
  intro e
  simp [strip_key_strings, List.mem_filter]

/-- Modelled from the spec: the entry identity the claim states the
filter uses — the original-language string, or `context ++ "\u0004" ++ id`
when a context is present. -/
def claimEntryId (e : POEntry) : List Char :=
  match e.msgctxt with
  | some ctx => ctx ++ [Char.ofNat 4] ++ e.msgid
  | none => e.msgid

/-- An entry whose context starts with an underscore while its `msgid`
does not: its claim-identity is a key string, its `msgid` is not. -/
def ctxEntryExample : POEntry :=
  { msgid := ['x'], msgstr := [], msgctxt := some ['_', 'c'], occurrences := [] }

/-- A one-entry catalog exhibiting the difference. -/
def ctxCatalogExample : POFile :=
  { header := [], metadata := [], metadata_is_fuzzy := [], entries := [ctxEntryExample] }

/-- Claim C4, counterexample to the claim as stated: filtering on the
`"context\u0004id"` identity would remove `ctxEntryExample`, but
`strip_key_strings` (which inspects only `msgid`) keeps it. -/
theorem strip_key_strings_counterexample :
    ¬ ((strip_key_strings ctxCatalogExample).entries
        = ctxCatalogExample.entries.filter (fun e => !is_key_string (claimEntryId e))) := by
  decide

/-! ### C2: per-locale catalog initialization runs at most once -/

/-- Claim C2: in `run_babel_extraction`, a locale whose catalog directory
already holds a catalog for the domain is skipped by the initialization
loop: no `pybabel init` is ever issued for it (so initialization leaves
its catalog untouched; only the update step follows). -/
theorem babel_init_skipped (name : String) (cfg : Bool) (locales : List String)
    (hasCatalog : String → Bool) (ex : Bool) (l : String)
    (h : hasCatalog l = true) :
    Event.babelInit l name ∉ runBabelTrace name cfg locales hasCatalog ex := by
  cases cfg with
  | false => simp [runBabelTrace]
  | true =>
    intro hmem
    unfold runBabelTrace at hmem
    rw [if_pos rfl] at hmem
    rcases List.mem_append.mp hmem with h1 | h1
    · rcases List.mem_append.mp h1 with h2 | h2
      · rcases List.mem_cons.mp h2 with h3 | h3
        · exact Event.noConfusion h3
        · rcases List.mem_flatMap.mp h3 with ⟨l', hl', hmem'⟩
          by_cases hc : hasCatalog l'
          · simp [hc] at hmem'
          · simp [hc] at hmem'
            exact absurd h (by rw [hmem']; simp [hc])
      · simp at h2
    · by_cases hex : ex <;> simp [hex] at h1

/-- Claim C2, witness: with locales `fr` and `de` where only `fr` already
has a catalog, the `mako` pass issues no `pybabel init` for `fr`. -/
theorem babel_init_skipped_witness :
    ((fun l => l == "fr") "fr" = true) ∧
    Event.babelInit "fr" "mako"
      ∉ runBabelTrace "mako" true ["fr", "de"] (fun l => l == "fr") true :=
  ⟨by decide,
   babel_init_skipped "mako" true ["fr", "de"] (fun l => l == "fr") true "fr" (by decide)⟩

/-! ### C8: the transient combined-output file is deleted -/

/-- The per-locale initialization block rewritten as a filter over the
locales lacking a catalog. -/
lemma flatMap_init_eq_filter_map (name : String) (locales : List String)
    (hasCatalog : String → Bool) :
    (locales.flatMap fun l => if hasCatalog l then [] else [Event.babelInit l name])
      = ((locales.filter fun l => !hasCatalog l).map fun l => Event.babelInit l name) := by
  induction locales with
  | nil => rfl
  | cons a t ih => by_cases h : hasCatalog a <;> simp [h, ih]

/-- Claim C8: when the configuration exists and the combined output file
is present after the update, the pass's trace is: one extraction, the
initializations of exactly the catalog-less locales, one update, and —
last of all, after the whole update sub-sequence — the deletion of the
transient combined-output file `name.po`. -/
theorem babel_removes_transient (name : String) (locales : List String)
    (hasCatalog : String → Bool) :
    runBabelTrace name true locales hasCatalog true
      = Event.babelExtract name ::
          ((locales.filter fun l => !hasCatalog l).map fun l => Event.babelInit l name)
          ++ [Event.babelUpdate name, Event.removeFile (name ++ ".po")] ∧
    (runBabelTrace name true locales hasCatalog true).getLast?
      = some (Event.removeFile (name ++ ".po")) := by
  have e : runBabelTrace name true locales hasCatalog true
      = Event.babelExtract name ::
          ((locales.filter fun l => !hasCatalog l).map fun l => Event.babelInit l name)
          ++ [Event.babelUpdate name, Event.removeFile (name ++ ".po")] := by
    simp [runBabelTrace, flatMap_init_eq_filter_map]
  refine ⟨e, ?_⟩
  rw [e]
  rw [show Event.babelExtract name ::
        ((locales.filter fun l => !hasCatalog l).map fun l => Event.babelInit l name)
        ++ [Event.babelUpdate name, Event.removeFile (name ++ ".po")]
      = (Event.babelExtract name ::
          ((locales.filter fun l => !hasCatalog l).map fun l => Event.babelInit l name)
          ++ [Event.babelUpdate name]) ++ [Event.removeFile (name ++ ".po")] by simp]
  exact List.getLast?_concat _

/-! ### C7: a missing babel configuration is a silent, local skip -/

/-- Every event of a babel pass carries that pass's domain (or none,
for the transient-file deletion). -/
lemma runBabel_domain (name : String) (cfg : Bool) (locales : List String)
    (hasCatalog : String → Bool) (ex : Bool) :
    ∀ e ∈ runBabelTrace name cfg locales hasCatalog ex,
      eventDomain e = some name ∨ eventDomain e = none := by
  intro e he
  cases cfg with
  | false => simp [runBabelTrace] at he
  | true =>
    unfold runBabelTrace at he
    rw [if_pos rfl] at he
    rcases List.mem_append.mp he with h1 | h1
    · rcases List.mem_append.mp h1 with h2 | h2
      · rcases List.mem_cons.mp h2 with h3 | h3
        · subst h3; left; rfl
        · rcases List.mem_flatMap.mp h3 with ⟨l', -, hmem'⟩
          by_cases hc : hasCatalog l' <;> simp [hc] at hmem'
          subst hmem'; left; rfl
      · simp at h2; subst h2; left; rfl
    · by_cases hex : ex <;> simp [hex] at h1
      subst h1; right; rfl

/-- A babel pass contributes nothing to another pass's domain. -/
lemma runBabel_filter_ne (name n' : String) (cfg : Bool) (locales : List String)
    (hasCatalog : String → Bool) (ex : Bool) (h : name ≠ n') :
    (runBabelTrace name cfg locales hasCatalog ex).filter
      (fun e => eventDomain e == some n') = [] := by
  rw [List.filter_eq_nil_iff]
  intro e he
  rcases runBabel_domain name cfg locales hasCatalog ex e he with hd | hd <;>
    simp [hd, h]

/-- Claim C7: a pass whose configuration file is absent performs no
extraction, no initialization, no update and no deletion (its trace is
empty), and such an absence does not affect the other pass: the
underscore-domain portion of the whole run is independent of everything
about the mako pass, and symmetrically. -/
theorem babel_cfg_missing_skips :
    (∀ (name : String) (locales : List String) (hasCatalog : String → Bool) (ex : Bool),
       runBabelTrace name false locales hasCatalog ex = []) ∧
    (∀ (cfgM cfgM' cfgU : Bool) (locales : List String)
       (hcM hcM' hcU : String → Bool) (exM exM' exU : Bool) (seg : String → List String),
       (runTrace cfgM cfgU locales hcM hcU exM exU seg).filter
           (fun e => eventDomain e == some "underscore")
         = (runTrace cfgM' cfgU locales hcM' hcU exM' exU seg).filter
           (fun e => eventDomain e == some "underscore")) ∧
    (∀ (cfgM cfgU cfgU' : Bool) (locales : List String)
       (hcM hcU hcU' : String → Bool) (exM exU exU' : Bool) (seg : String → List String),
       (runTrace cfgM cfgU locales hcM hcU exM exU seg).filter
           (fun e => eventDomain e == some "mako")
         = (runTrace cfgM cfgU' locales hcM hcU' exM exU' seg).filter
           (fun e => eventDomain e == some "mako")) := by
  refine ⟨fun name locales hasCatalog ex => rfl, ?_, ?_⟩
  · intro cfgM cfgM' cfgU locales hcM hcM' hcU exM exM' exU seg
    unfold runTrace
    rw [List.filter_append, List.filter_append, List.filter_append, List.filter_append,
        runBabel_filter_ne "mako" "underscore" cfgM locales hcM exM (by decide),
        runBabel_filter_ne "mako" "underscore" cfgM' locales hcM' exM' (by decide)]
  · intro cfgM cfgU cfgU' locales hcM hcU hcU' exM exU exU' seg
    unfold runTrace
    rw [List.filter_append, List.filter_append, List.filter_append, List.filter_append,
        runBabel_filter_ne "underscore" "mako" cfgU locales hcU exU (by decide),
        runBabel_filter_ne "underscore" "mako" cfgU' locales hcU' exU' (by decide)]

/-! ### Metadata-update lemmas -/

/-- Invariant: key `k` is present and every pair with key `k` holds value `v`. -/
def KeyHolds (m : List (String × String)) (k v : String) : Prop :=
  (∃ p ∈ m, p.1 = k) ∧ (∀ p ∈ m, p.1 = k → p.2 = v)

/-- Storing `v` under `k` establishes the invariant. -/
lemma updateKey_keyHolds (m : List (String × String)) (k v : String) :
    KeyHolds (updateKey m k v) k v := by
  unfold updateKey
  by_cases h : m.any (fun kv => kv.1 == k)
  · rw [if_pos h]
    rcases List.any_eq_true.mp h with ⟨q, hq, hq2⟩
    constructor
    · refine ⟨(k, v), List.mem_map.mpr ⟨q, hq, ?_⟩, rfl⟩
      simp only [beq_iff_eq] at hq2
      simp [hq2]
    · intro p hp hpk
      rcases List.mem_map.mp hp with ⟨q', hq', hq'2⟩
      by_cases hqk : q'.1 = k
      · simp [hqk] at hq'2; rw [← hq'2]
      · simp [hqk] at hq'2
        subst hq'2
        exact absurd hpk hqk
  · rw [if_neg h]
    constructor
    · exact ⟨(k, v), by simp⟩
    · intro p hp hpk
      rcases List.mem_append.mp hp with h1 | h1
      · exfalso
        exact h (List.any_eq_true.mpr ⟨p, h1, by simp [hpk]⟩)
      · simp only [List.mem_singleton] at h1
        rw [h1]

/-- Storing a different key preserves the invariant. -/
lemma updateKey_keyHolds_preserve (m : List (String × String)) (k v k' v' : String)
    (hne : k ≠ k') (h : KeyHolds m k v) :
    KeyHolds (updateKey m k' v') k v := by
  obtain ⟨⟨p0, hp0, hp0k⟩, hall⟩ := h
  unfold updateKey
  by_cases ha : m.any (fun kv => kv.1 == k')
  · rw [if_pos ha]
    constructor
    · refine ⟨p0, List.mem_map.mpr ⟨p0, hp0, ?_⟩, hp0k⟩
      rw [if_neg (by simp [hp0k, hne])]
    · intro p hp hpk
      rcases List.mem_map.mp hp with ⟨q, hq, hq2⟩
      by_cases hqk : q.1 = k'
      · simp [hqk] at hq2
        rw [← hq2] at hpk
        exact absurd hpk.symm hne
      · simp [hqk] at hq2
        subst hq2
        exact hall q hq hpk
  · rw [if_neg ha]
    constructor
    · exact ⟨p0, List.mem_append_left _ hp0, hp0k⟩
    · intro p hp hpk
      rcases List.mem_append.mp hp with h1 | h1
      · exact hall p h1 hpk
      · simp only [List.mem_singleton] at h1
        rw [h1] at hpk
        exact absurd hpk.symm hne

/-- When the invariant already holds, storing `v` under `k` is a no-op. -/
lemma updateKey_eq_of_keyHolds (m : List (String × String)) (k v : String)
    (h : KeyHolds m k v) : updateKey m k v = m := by
  obtain ⟨⟨p0, hp0, hp0k⟩, hall⟩ := h
  unfold updateKey
  rw [if_pos (List.any_eq_true.mpr ⟨p0, hp0, by simp [hp0k]⟩)]
  have hpt : ∀ p ∈ m, (if (p.1 == k) = true then (k, v) else p) = p := by
    intro p hp
    rcases p with ⟨a, b⟩
    by_cases hak : a = k
    · subst hak
      have hb : b = v := hall (a, b) hp rfl
      simp [hb]
    · simp [hak]
  calc m.map (fun kv => if kv.1 == k then (k, v) else kv)
      = m.map id := List.map_congr_left hpt
    _ = m := List.map_id m

/-- Overwriting the values of key `k` in place does not affect the pairs
of a different key `k'`. -/
lemma filter_map_overwrite (t : List (String × String)) (k v k' : String) (h : k' ≠ k) :
    (t.map (fun kv => if kv.1 == k then (k, v) else kv)).filter (fun kv => kv.1 == k')
      = t.filter (fun kv => kv.1 == k') := by
  induction t with
  | nil => rfl
  | cons q t ih =>
    by_cases hqk : q.1 = k <;> by_cases hq' : q.1 = k' <;>
      simp_all [List.filter_cons, Ne.symm h]

/-- Storing under key `k` leaves the pairs of any other key untouched. -/
lemma updateKey_filter_ne (m : List (String × String)) (k v k' : String) (h : k' ≠ k) :
    (updateKey m k v).filter (fun kv => kv.1 == k') = m.filter (fun kv => kv.1 == k') := by
  unfold updateKey
  by_cases ha : m.any (fun kv => kv.1 == k)
  · rw [if_pos ha]
    exact filter_map_overwrite m k v k' h
  · rw [if_neg ha, List.filter_append]
    have e : [(k, v)].filter (fun kv => kv.1 == k') = [] := by simp [Ne.symm h]
    rw [e, List.append_nil]

/-- A dict update whose keys avoid `k` preserves the invariant for `k`. -/
lemma dictUpdate_keyHolds_preserve (fixes : List (String × String))
    (m : List (String × String)) (k v : String)
    (hk : k ∉ fixes.map Prod.fst) (h : KeyHolds m k v) :
    KeyHolds (dictUpdate m fixes) k v := by
  induction fixes generalizing m with
  | nil => exact h
  | cons a t ih =>
    simp only [List.map_cons, List.mem_cons, not_or] at hk
    exact ih _ hk.2 (updateKey_keyHolds_preserve m k v a.1 a.2 hk.1 h)

/-- After a dict update with pairwise-distinct keys, every stored pair's
invariant holds. -/
lemma dictUpdate_keyHolds_of_mem (fixes : List (String × String))
    (m : List (String × String)) (hnd : (fixes.map Prod.fst).Nodup) :
    ∀ kv ∈ fixes, KeyHolds (dictUpdate m fixes) kv.1 kv.2 := by
  induction fixes generalizing m with
  | nil => simp
  | cons a t ih =>
    intro kv hkv
    simp only [List.map_cons, List.nodup_cons] at hnd
    rcases List.mem_cons.mp hkv with rfl | hmem
    · exact dictUpdate_keyHolds_preserve t _ _ _ hnd.1 (updateKey_keyHolds m kv.1 kv.2)
    · exact ih _ hnd.2 kv hmem

/-- A dict update all of whose pairs already hold is a no-op. -/
lemma dictUpdate_eq_of_keyHolds (fixes : List (String × String))
    (m : List (String × String))
    (h : ∀ kv ∈ fixes, KeyHolds m kv.1 kv.2) : dictUpdate m fixes = m := by
  induction fixes with
  | nil => rfl
  | cons a t ih =>
    have e1 : updateKey m a.1 a.2 = m := updateKey_eq_of_keyHolds m a.1 a.2 (h a (by simp))
    show dictUpdate (updateKey m a.1 a.2) t = m
    rw [e1]
    exact ih (fun kv hkv => h kv (List.mem_cons_of_mem a hkv))

/-- A dict update leaves the pairs of every key outside its key set
untouched. -/
lemma dictUpdate_filter_not_mem (fixes : List (String × String))
    (m : List (String × String)) (k' : String)
    (hk : k' ∉ fixes.map Prod.fst) :
    (dictUpdate m fixes).filter (fun kv => kv.1 == k')
      = m.filter (fun kv => kv.1 == k') := by
  induction fixes generalizing m with
  | nil => rfl
  | cons a t ih =>
    simp only [List.map_cons, List.mem_cons, not_or] at hk
    show (dictUpdate (updateKey m a.1 a.2) t).filter (fun kv => kv.1 == k')
        = m.filter (fun kv => kv.1 == k')
    rw [ih _ hk.2, updateKey_filter_ne m a.1 a.2 k' hk.1]

/-- The key set of `fix_metadata`'s fixes. -/
lemma metadataFixes_keys (now : String) :
    (metadataFixes now).map Prod.fst
      = ["PO-Revision-Date", "Report-Msgid-Bugs-To", "Project-Id-Version",
         "Language", "Last-Translator", "Language-Team"] := rfl

/-! ### Replacement lemmas for the header normalizer -/

/-- A replacement whose pattern does not occur anywhere is the identity
(any fuel). -/
lemma pyReplaceAux_of_not_hasSub (n : Nat) (s p r : List Char)
    (h : hasSub s p = false) : pyReplaceAux n s p r = s := by
  induction n generalizing s with
  | zero => cases s <;> rfl
  | succ n ih =>
    cases s with
    | nil => rfl
    | cons c cs =>
      unfold hasSub at h
      rw [Bool.or_eq_false_iff] at h
      simp only [pyReplaceAux, h.1, Bool.false_and, Bool.false_eq_true, if_false]
      rw [ih cs h.2]

/-- `str.replace` with an absent pattern is the identity. -/
lemma pyReplace_of_not_hasSub (s p r : List Char) (h : hasSub s p = false) :
    pyReplace s p r = s :=
  pyReplaceAux_of_not_hasSub s.length s p r h

/-- A fix chain none of whose patterns occur is the identity. -/
lemma applyFixes_of_not_hasSub (fixes : List (List Char × List Char)) (s : List Char)
    (h : ∀ pr ∈ fixes, hasSub s pr.1 = false) : applyFixes fixes s = s := by
  induction fixes with
  | nil => rfl
  | cons a t ih =>
    show applyFixes t (pyReplace s a.1 a.2) = s
    rw [pyReplace_of_not_hasSub s a.1 a.2 (h a (by simp))]
    exact ih (fun pr hpr => h pr (List.mem_cons_of_mem a hpr))

/-! ### C3: idempotence of the normalizers -/

/-- Claim C3 (amended): `fix_metadata` (with the timestamp of the call
held fixed) is idempotent on every catalog; `fix_header` (with the year
held fixed) is idempotent on every catalog whose once-normalized header
contains no occurrence of any of the eight replacement patterns — which
is the case for the boilerplate headers the tools generate, but not for
every catalog: the claim as stated, quantified over all catalogs, is
refuted by the counterexample below. -/
theorem fix_normalizers_idempotent :
    (∀ (now : String) (c : POFile),
       fix_metadata now (fix_metadata now c) = fix_metadata now c) ∧
    (∀ (year : List Char) (c : POFile),
       (∀ pr ∈ headerFixes year, hasSub (fix_header year c).header pr.1 = false) →
       fix_header year (fix_header year c) = fix_header year c) := by
  constructor
  · intro now c
    have e : dictUpdate ((fix_metadata now c).metadata) (metadataFixes now)
        = (fix_metadata now c).metadata :=
      dictUpdate_eq_of_keyHolds _ _
        (dictUpdate_keyHolds_of_mem (metadataFixes now) c.metadata
          (by rw [metadataFixes_keys]; decide))
    show ({ header := (fix_metadata now c).header,
            metadata := dictUpdate ((fix_metadata now c).metadata) (metadataFixes now),
            metadata_is_fuzzy := (fix_metadata now c).metadata_is_fuzzy,
            entries := (fix_metadata now c).entries } : POFile) = fix_metadata now c
    rw [e]
  · intro year c h
    have e : applyFixes (headerFixes year) ((fix_header year c).header)
        = (fix_header year c).header := applyFixes_of_not_hasSub _ _ h
    have hfz : (fix_header year c).metadata_is_fuzzy = [] := rfl
    generalize hX : fix_header year c = X at e hfz ⊢
    obtain ⟨xh, xm, xf, xe⟩ := X
    simp only [fix_header, POFile.mk.injEq] at e hfz ⊢
    exact ⟨e, trivial, hfz.symm, trivial⟩

/-- A catalog whose header juxtaposes a truncated first pattern with the
fifth pattern: replacing the fifth pattern by `EdX` completes an
occurrence of the first pattern, so a second `fix_header` pass rewrites
the header again. -/
def badHeaderCatalog : POFile :=
  { header := "SOME DESCRIPTIVE TITLTHE PACKAGE".toList ++ [apos]
      ++ "S COPYRIGHT HOLDER".toList,
    metadata := [], metadata_is_fuzzy := [], entries := [] }

/-- Claim C3, counterexample to the claim as stated: `fix_header` is not
idempotent on `badHeaderCatalog` (one pass yields the header
`SOME DESCRIPTIVE TITLEdX`, a second pass rewrites it to
`edX translation filedX`). -/
theorem fix_normalizers_counterexample :
    ¬ (fix_header "2026".toList (fix_header "2026".toList badHeaderCatalog)
         = fix_header "2026".toList badHeaderCatalog ∧
       fix_metadata "now-ts" (fix_metadata "now-ts" badHeaderCatalog)
         = fix_metadata "now-ts" badHeaderCatalog) :=
  fun h => absurd h.1 (by decide)

/-- A catalog with ordinary boilerplate placeholders. -/
def plainHeaderCatalog : POFile :=
  { header := "SOME DESCRIPTIVE TITLE".toList,
    metadata := [("Language", ""), ("X-Extra", "keep")],
    metadata_is_fuzzy := ["fuzzy"], entries := [] }

/-- Claim C3, witness: the `fix_metadata` half applied to the very
catalog that defeats `fix_header` (it needs no hypothesis), and the
`fix_header` half applied to a concrete catalog whose normalized header
is pattern-free, discharging the hypothesis by evaluation. -/
theorem fix_normalizers_idempotent_witness :
    (∀ pr ∈ headerFixes "2026".toList,
       hasSub (fix_header "2026".toList plainHeaderCatalog).header pr.1 = false) ∧
    (fix_metadata "now-ts" (fix_metadata "now-ts" badHeaderCatalog)
       = fix_metadata "now-ts" badHeaderCatalog ∧
     fix_header "2026".toList (fix_header "2026".toList plainHeaderCatalog)
       = fix_header "2026".toList plainHeaderCatalog) :=
  ⟨by decide,
   fix_normalizers_idempotent.1 "now-ts" badHeaderCatalog,
   fix_normalizers_idempotent.2 "2026".toList plainHeaderCatalog (by decide)⟩

/-! ### C9: `fix_metadata` overwrites exactly the fixed keys -/

/-- Claim C9: `fix_metadata` leaves header, entries and the fuzzy marker
untouched; every metadata key outside the fixed six keeps exactly the
pairs it had; and each of the six fixed keys is present afterwards with
exactly its fixed value, unconditionally. -/
theorem fix_metadata_frame (now : String) (c : POFile) :
    (fix_metadata now c).header = c.header ∧
    (fix_metadata now c).entries = c.entries ∧
    (fix_metadata now c).metadata_is_fuzzy = c.metadata_is_fuzzy ∧
    (∀ k, k ∉ ["PO-Revision-Date", "Report-Msgid-Bugs-To", "Project-Id-Version",
               "Language", "Last-Translator", "Language-Team"] →
       (fix_metadata now c).metadata.filter (fun kv => kv.1 == k)
         = c.metadata.filter (fun kv => kv.1 == k)) ∧
    (∀ kv ∈ metadataFixes now, KeyHolds (fix_metadata now c).metadata kv.1 kv.2) := by
  refine ⟨rfl, rfl, rfl, ?_, ?_⟩
  · intro k hk
    exact dictUpdate_filter_not_mem (metadataFixes now) c.metadata k
      (by rw [metadataFixes_keys]; exact hk)
  · exact dictUpdate_keyHolds_of_mem (metadataFixes now) c.metadata
      (by rw [metadataFixes_keys]; decide)

/-- Claim C9, witness: on a concrete catalog, the stray key `X-Extra`
keeps its pairs and the fixed key `Language` is overwritten to `en`. -/
theorem fix_metadata_frame_witness :
    ("X-Extra" ∉ ["PO-Revision-Date", "Report-Msgid-Bugs-To", "Project-Id-Version",
                  "Language", "Last-Translator", "Language-Team"] ∧
     ("Language", "en") ∈ metadataFixes "now-ts") ∧
    ((fix_metadata "now-ts" plainHeaderCatalog).metadata.filter (fun kv => kv.1 == "X-Extra")
       = plainHeaderCatalog.metadata.filter (fun kv => kv.1 == "X-Extra") ∧
     KeyHolds (fix_metadata "now-ts" plainHeaderCatalog).metadata "Language" "en") :=
  ⟨⟨by decide, by decide⟩,
   (fix_metadata_frame "now-ts" plainHeaderCatalog).2.2.2.1 "X-Extra" (by decide),
   (fix_metadata_frame "now-ts" plainHeaderCatalog).2.2.2.2 ("Language", "en") (by decide)⟩

/-! ### C6: ordering of guard, extraction, normalization, restore -/

lemma split_lt (p q : Event → Bool) (X Y : List Event)
    (hpY : ∀ e ∈ Y, p e = false) (hqX : ∀ e ∈ X, q e = false) :
    ∀ i j (hi : i < (X ++ Y).length) (hj : j < (X ++ Y).length),
      p ((X ++ Y).get ⟨i, hi⟩) = true → q ((X ++ Y).get ⟨j, hj⟩) = true → i < j := by
  intro i j hi hj hp hq
  have hiX : i < X.length := by
    by_contra hc
    push_neg at hc
    have hmem : (X ++ Y).get ⟨i, hi⟩ ∈ Y := by
      rw [List.get_eq_getElem, List.getElem_append_right hc]
      exact List.getElem_mem _
    rw [hpY _ hmem] at hp
    exact Bool.noConfusion hp
  have hjX : X.length ≤ j := by
    by_contra hc
    push_neg at hc
    have hmem : (X ++ Y).get ⟨j, hj⟩ ∈ X := by
      rw [List.get_eq_getElem, List.getElem_append_left hc]
      exact List.getElem_mem _
    rw [hqX _ hmem] at hq
    exact Bool.noConfusion hq
  omega

lemma mid_block_lt (p q : Event → Bool) (A B C : List Event)
    (hA : ∀ e ∈ A, p e = false ∧ q e = false)
    (hC : ∀ e ∈ C, p e = false ∧ q e = false)
    (hB : ∀ i j (hi : i < B.length) (hj : j < B.length),
        p (B.get ⟨i, hi⟩) = true → q (B.get ⟨j, hj⟩) = true → i < j) :
    ∀ i j (hi : i < (A ++ B ++ C).length) (hj : j < (A ++ B ++ C).length),
      p ((A ++ B ++ C).get ⟨i, hi⟩) = true →
      q ((A ++ B ++ C).get ⟨j, hj⟩) = true → i < j := by
  have eB : ∀ m (hm1 : A.length ≤ m) (hm2 : m < A.length + B.length)
      (hmt : m < (A ++ B ++ C).length),
      (A ++ B ++ C).get ⟨m, hmt⟩ = B.get ⟨m - A.length, by omega⟩ := by
    intro m hm1 hm2 hmt
    rw [List.get_eq_getElem,
        List.getElem_append_left (by simp only [List.length_append]; omega),
        List.getElem_append_right hm1]
    simp [List.get_eq_getElem]
  have inA : ∀ m (hmt : m < (A ++ B ++ C).length), m < A.length →
      (A ++ B ++ C).get ⟨m, hmt⟩ ∈ A := by
    intro m hmt hm
    rw [List.get_eq_getElem,
        List.getElem_append_left (by simp only [List.length_append]; omega),
        List.getElem_append_left hm]
    exact List.getElem_mem _
  have inC : ∀ m (hmt : m < (A ++ B ++ C).length), A.length + B.length ≤ m →
      (A ++ B ++ C).get ⟨m, hmt⟩ ∈ C := by
    intro m hmt hm
    rw [List.get_eq_getElem,
        List.getElem_append_right (by simp only [List.length_append]; omega)]
    exact List.getElem_mem _
  intro i j hi hj hp hq
  have hiA : A.length ≤ i := by
    by_contra hc
    push_neg at hc
    rw [(hA _ (inA i hi hc)).1] at hp
    exact Bool.noConfusion hp
  have hiC : i < A.length + B.length := by
    by_contra hc
    push_neg at hc
    rw [(hC _ (inC i hi hc)).1] at hp
    exact Bool.noConfusion hp
  have hjA : A.length ≤ j := by
    by_contra hc
    push_neg at hc
    rw [(hA _ (inA j hj hc)).2] at hq
    exact Bool.noConfusion hq
  have hjC : j < A.length + B.length := by
    by_contra hc
    push_neg at hc
    rw [(hC _ (inC j hj hc)).2] at hq
    exact Bool.noConfusion hq
  rw [eB i hiA hiC hi] at hp
  rw [eB j hjA hjC hj] at hq
  have := hB (i - A.length) (j - A.length) (by omega) (by omega) hp hq
  omega


lemma localeTrace_other_events (seg : String → List String) (l l' : String) (hne : l' ≠ l) :
    ∀ e ∈ localeTrace seg l',
      isGuardEvent l e = false ∧ isMakeEvent l e = false ∧
      isCleanEvent l e = false ∧ isRestoreEvent l e = false := by
  intro e he
  have hb : (l' == l) = false := by simp [hne]
  simp only [localeTrace, List.mem_append, List.mem_cons, List.mem_map,
    List.not_mem_nil, or_false] at he
  rcases he with ((rfl | rfl | rfl | rfl | rfl | rfl | rfl) | ⟨f, hf, rfl⟩) | (rfl | rfl) <;>
    simp [isGuardEvent, isMakeEvent, isCleanEvent, isRestoreEvent, hb]

lemma runBabel_locale_events (name : String) (cfg : Bool) (locales : List String)
    (hasCatalog : String → Bool) (ex : Bool) (l : String) :
    ∀ e ∈ runBabelTrace name cfg locales hasCatalog ex,
      isGuardEvent l e = false ∧ isMakeEvent l e = false ∧
      isCleanEvent l e = false ∧ isRestoreEvent l e = false := by
  intro e he
  cases cfg with
  | false => simp [runBabelTrace] at he
  | true =>
    unfold runBabelTrace at he
    rw [if_pos rfl] at he
    rcases List.mem_append.mp he with h1 | h1
    · rcases List.mem_append.mp h1 with h2 | h2
      · rcases List.mem_cons.mp h2 with rfl | h3
        · exact ⟨rfl, rfl, rfl, rfl⟩
        · rcases List.mem_flatMap.mp h3 with ⟨l'', -, hmem'⟩
          by_cases hc : hasCatalog l'' <;> simp [hc] at hmem'
          subst hmem'
          exact ⟨rfl, rfl, rfl, rfl⟩
      · simp at h2; subst h2; exact ⟨rfl, rfl, rfl, rfl⟩
    · by_cases hex : ex <;> simp [hex] at h1
      subst h1; exact ⟨rfl, rfl, rfl, rfl⟩

lemma localeTrace_guard_before_make (seg : String → List String) (l : String) :
    ∀ i j (hi : i < (localeTrace seg l).length) (hj : j < (localeTrace seg l).length),
      isGuardEvent l ((localeTrace seg l).get ⟨i, hi⟩) = true →
      isMakeEvent l ((localeTrace seg l).get ⟨j, hj⟩) = true → i < j := by
  have e : localeTrace seg l
      = ([Event.renameFile l "django.po" "django-saved.po",
          Event.renameFile l "djangojs.po" "djangojs-saved.po"] : List Event)
        ++ ([Event.makemessages l "django",
             Event.makemessages l "djangojs",
             Event.renameFile l "django.po" "django-partial.po",
             Event.renameFile l "djangojs.po" "djangojs-partial.po",
             Event.segment l]
            ++ (seg l).map (Event.clean l)
            ++ [Event.renameFile l "django-saved.po" "django.po",
                Event.renameFile l "djangojs-saved.po" "djangojs.po"]) := by
    simp [localeTrace]
  rw [e]
  apply split_lt
  · intro e' he'
    simp only [List.mem_append, List.mem_cons, List.mem_map,
      List.not_mem_nil, or_false] at he'
    rcases he' with ((rfl | rfl | rfl | rfl | rfl) | ⟨f, hf, rfl⟩) | (rfl | rfl) <;>
      simp [isGuardEvent]
  · intro e' he'
    simp only [List.mem_cons, List.not_mem_nil, or_false] at he'
    rcases he' with rfl | rfl <;> simp [isMakeEvent]

lemma localeTrace_clean_before_restore (seg : String → List String) (l : String) :
    ∀ i j (hi : i < (localeTrace seg l).length) (hj : j < (localeTrace seg l).length),
      isCleanEvent l ((localeTrace seg l).get ⟨i, hi⟩) = true →
      isRestoreEvent l ((localeTrace seg l).get ⟨j, hj⟩) = true → i < j := by
  have e : localeTrace seg l
      = (([Event.renameFile l "django.po" "django-saved.po",
           Event.renameFile l "djangojs.po" "djangojs-saved.po",
           Event.makemessages l "django",
           Event.makemessages l "djangojs",
           Event.renameFile l "django.po" "django-partial.po",
           Event.renameFile l "djangojs.po" "djangojs-partial.po",
           Event.segment l]
          ++ (seg l).map (Event.clean l))
        ++ [Event.renameFile l "django-saved.po" "django.po",
            Event.renameFile l "djangojs-saved.po" "djangojs.po"]) := by
    simp [localeTrace]
  rw [e]
  apply split_lt
  · intro e' he'
    simp only [List.mem_cons, List.not_mem_nil, or_false] at he'
    rcases he' with rfl | rfl <;> simp [isCleanEvent]
  · intro e' he'
    simp only [List.mem_append, List.mem_cons, List.mem_map,
      List.not_mem_nil, or_false] at he'
    rcases he' with (rfl | rfl | rfl | rfl | rfl | rfl | rfl) | ⟨f, hf, rfl⟩ <;>
      simp [isRestoreEvent]


/-- Claim C6: in any run over pairwise-distinct locales, for each locale
the two guard renames occur at strictly earlier trace positions than
every `makemessages` invocation for that locale, and every per-file
normalization (clean) of that locale occurs strictly before both restore
renames of that locale; the order is never reversed. -/
theorem run_guard_before_make_restore_after_clean
    (cfgM cfgU : Bool) (locales : List String) (hcM hcU : String → Bool)
    (exM exU : Bool) (seg : String → List String) (l : String)
    (hnd : locales.Nodup) (hl : l ∈ locales) :
    (∀ i j (hi : i < (runTrace cfgM cfgU locales hcM hcU exM exU seg).length)
       (hj : j < (runTrace cfgM cfgU locales hcM hcU exM exU seg).length),
       isGuardEvent l ((runTrace cfgM cfgU locales hcM hcU exM exU seg).get ⟨i, hi⟩) = true →
       isMakeEvent l ((runTrace cfgM cfgU locales hcM hcU exM exU seg).get ⟨j, hj⟩) = true →
       i < j) ∧
    (∀ i j (hi : i < (runTrace cfgM cfgU locales hcM hcU exM exU seg).length)
       (hj : j < (runTrace cfgM cfgU locales hcM hcU exM exU seg).length),
       isCleanEvent l ((runTrace cfgM cfgU locales hcM hcU exM exU seg).get ⟨i, hi⟩) = true →
       isRestoreEvent l ((runTrace cfgM cfgU locales hcM hcU exM exU seg).get ⟨j, hj⟩) = true →
       i < j) := by
  obtain ⟨L1, L2, hX⟩ := List.append_of_mem hl
  subst hX
  have hndR : (l :: L2).Nodup := hnd.of_append_right
  have hl2 : l ∉ L2 := (List.nodup_cons.mp hndR).1
  have hdisj : L1.Disjoint (l :: L2) := List.disjoint_of_nodup_append hnd
  have hl1 : l ∉ L1 := fun hmem => hdisj hmem (List.mem_cons_self l L2)
  have etr : runTrace cfgM cfgU (L1 ++ l :: L2) hcM hcU exM exU seg
      = ((runBabelTrace "mako" cfgM (L1 ++ l :: L2) hcM exM
          ++ runBabelTrace "underscore" cfgU (L1 ++ l :: L2) hcU exU)
          ++ L1.flatMap (localeTrace seg))
        ++ localeTrace seg l
        ++ L2.flatMap (localeTrace seg) := by
    unfold runTrace
    rw [List.flatMap_append, List.flatMap_cons]
    simp [List.append_assoc]
  have hAfacts : ∀ e ∈ (runBabelTrace "mako" cfgM (L1 ++ l :: L2) hcM exM
          ++ runBabelTrace "underscore" cfgU (L1 ++ l :: L2) hcU exU)
          ++ L1.flatMap (localeTrace seg),
      isGuardEvent l e = false ∧ isMakeEvent l e = false ∧
      isCleanEvent l e = false ∧ isRestoreEvent l e = false := by
    intro e he
    rcases List.mem_append.mp he with h1 | h1
    · rcases List.mem_append.mp h1 with h2 | h2
      · exact runBabel_locale_events _ _ _ _ _ l e h2
      · exact runBabel_locale_events _ _ _ _ _ l e h2
    · rcases List.mem_flatMap.mp h1 with ⟨l'', hl'', hmem⟩
      exact localeTrace_other_events seg l l'' (fun hEq => hl1 (hEq ▸ hl'')) e hmem
  have hCfacts : ∀ e ∈ L2.flatMap (localeTrace seg),
      isGuardEvent l e = false ∧ isMakeEvent l e = false ∧
      isCleanEvent l e = false ∧ isRestoreEvent l e = false := by
    intro e he
    rcases List.mem_flatMap.mp he with ⟨l'', hl'', hmem⟩
    exact localeTrace_other_events seg l l'' (fun hEq => hl2 (hEq ▸ hl'')) e hmem
  constructor
  · rw [etr]
    exact mid_block_lt _ _ _ _ _
      (fun e he => ⟨(hAfacts e he).1, (hAfacts e he).2.1⟩)
      (fun e he => ⟨(hCfacts e he).1, (hCfacts e he).2.1⟩)
      (localeTrace_guard_before_make seg l)
  · rw [etr]
    exact mid_block_lt _ _ _ _ _
      (fun e he => ⟨(hAfacts e he).2.2.1, (hAfacts e he).2.2.2⟩)
      (fun e he => ⟨(hCfacts e he).2.2.1, (hCfacts e he).2.2.2⟩)
      (localeTrace_clean_before_restore seg l)


/-- Claim C6, witness: the ordering theorem applied to a concrete run
with distinct locales `fr`, `de`. -/
theorem run_guard_order_witness :
    ((["fr", "de"] : List String).Nodup ∧ "fr" ∈ (["fr", "de"] : List String)) ∧
    ((∀ i j (hi : i < (runTrace true true ["fr", "de"] (fun _ => false) (fun _ => false)
          true true (fun _ => ["django-partial.po"])).length)
        (hj : j < (runTrace true true ["fr", "de"] (fun _ => false) (fun _ => false)
          true true (fun _ => ["django-partial.po"])).length),
        isGuardEvent "fr" ((runTrace true true ["fr", "de"] (fun _ => false) (fun _ => false)
          true true (fun _ => ["django-partial.po"])).get ⟨i, hi⟩) = true →
        isMakeEvent "fr" ((runTrace true true ["fr", "de"] (fun _ => false) (fun _ => false)
          true true (fun _ => ["django-partial.po"])).get ⟨j, hj⟩) = true → i < j) ∧
     (∀ i j (hi : i < (runTrace true true ["fr", "de"] (fun _ => false) (fun _ => false)
          true true (fun _ => ["django-partial.po"])).length)
        (hj : j < (runTrace true true ["fr", "de"] (fun _ => false) (fun _ => false)
          true true (fun _ => ["django-partial.po"])).length),
        isCleanEvent "fr" ((runTrace true true ["fr", "de"] (fun _ => false) (fun _ => false)
          true true (fun _ => ["django-partial.po"])).get ⟨i, hi⟩) = true →
        isRestoreEvent "fr" ((runTrace true true ["fr", "de"] (fun _ => false) (fun _ => false)
          true true (fun _ => ["django-partial.po"])).get ⟨j, hj⟩) = true → i < j)) :=
  ⟨⟨by decide, by decide⟩,
   run_guard_before_make_restore_after_clean true true ["fr", "de"]
     (fun _ => false) (fun _ => false) true true (fun _ => ["django-partial.po"]) "fr"
     (by decide) (by decide)⟩

end I18nExtract
